import Mathlib

/-!
# Verification of the toydns wire-format codec

Shallow embedding of the DNS codec in `utils.py` and `main.py` of the
toydns repository.  Python byte strings are modelled as `List Nat`
(each element a byte value `< 256`), Python `str` values as `List Char`,
and Python exceptions as an explicit error type.  Python's fuel-free
recursion in `decode_name` is modelled with an explicit fuel counter so
that termination (the absence of fuel exhaustion) is a provable theorem
rather than an assumption.
-/

deriving instance DecidableEq for Except

namespace ToyDns

/-- The Python exceptions that the codec can raise:
`indexError` for `buffer[i]` out of range (`IndexError`),
`compressionCycle` for `ValueError("Recursion while decoding DNS name")`,
`asciiError` for `UnicodeDecodeError` from `.decode("ascii")`,
`structError` for `struct.error` from `Struct.unpack_from`,
`valueError` for `ValueError` from an enum lookup such as `DnsType(typ)`
or from `socket.inet_ntop` on a wrongly sized argument. -/
inductive Err where
  | indexError
  | compressionCycle
  | asciiError
  | structError
  | valueError
deriving DecidableEq, Repr

/-- The pointer test of `decode_name` (utils.py line 27):
`if n & 0b1100_0000:` — the byte is treated as a compression pointer
when the bitwise AND with `0b11000000` is nonzero (Python truthiness). -/
def isPointerByte (n : Nat) : Bool := n &&& 192 != 0

/-- Decoding an ASCII byte list to a string, `bytes.decode("ascii")`
on bytes already checked to be `< 128`. -/
def asciiChars (l : List Nat) : List Char := l.map Char.ofNat

/-- Result of scanning one label sequence (the body of the `while` loop
inside `decode_name`'s helper `decode`, utils.py lines 23–38) up to its
first terminator: either the terminating zero byte was reached
(`done parts ret`, with `ret` the offset just past the zero byte), or a
compression pointer was reached (`jump pos ret parts`, with `pos` the
14-bit target and `ret` the offset just past the two pointer bytes), or
a Python exception was raised (`err`). -/
inductive SegResult where
  | done (parts : List (List Char)) (ret : Nat)
  | jump (pos : Nat) (ret : Nat) (parts : List (List Char))
  | err (e : Err)
deriving DecidableEq, Repr

/-- The `while n := buffer[offset]:` loop of `decode_name`'s helper
(utils.py lines 24–38), scanning labels at `offset` until the first
terminator.  `buffer[offset]` out of range is `IndexError`; a byte with
`n & 0b11000000` nonzero is a pointer whose target is
`((n & 0b00111111) << 8) + buffer[offset+1]`; otherwise `n` is a label
length and `buffer[start:start+n]` (a Python slice, which truncates
silently at the end of the buffer) is decoded as ASCII and appended.
The Python loop needs no fuel (each label strictly advances the
offset); here an explicit fuel makes the recursion structural, `none`
marks fuel exhaustion, and `scanSeg_ne_none` below shows exhaustion
never happens at the fuel the callers pass.  A call that is already
past the end of the buffer raises `IndexError` at any fuel, exactly as
`buffer[offset]` does. -/
def scanSeg (b : List Nat) : Nat → Nat → Option SegResult
  | 0, offset =>
    match b[offset]? with
    | none => some (.err .indexError)
    | some _ => none
  | f + 1, offset =>
    match b[offset]? with
    | none => some (.err .indexError)
    | some n =>
      if n = 0 then some (.done [] (offset + 1))
      else if isPointerByte n then
        match b[offset + 1]? with
        | none => some (.err .indexError)
        | some m => some (.jump (((n &&& 63) <<< 8) + m) (offset + 2) [])
      else
        let seg := (b.drop (offset + 1)).take n
        if seg.all (· < 128) then
          match scanSeg b f (offset + 1 + n) with
          | none => none
          | some (.err e) => some (.err e)
          | some (.done parts ret) => some (.done (asciiChars seg :: parts) ret)
          | some (.jump pos ret parts) =>
            some (.jump pos ret (asciiChars seg :: parts))
        else some (.err .asciiError)

/-- The recursive helper `decode` of `decode_name` (utils.py lines
22–39) with explicit fuel for the chain of compression-pointer jumps.
On entry the current offset is added to the `seen` set
(`seen.add(offset)`); a jump whose target is already in `seen` raises
the cycle error; otherwise the jump recurses with one unit of fuel
less, its returned offset is discarded and the caller's offset just
past the pointer is kept.  `none` models fuel exhaustion (which the
theorem `decode_name_terminates` below shows never happens at the fuel
used by `decode_name`). -/
def decodeCall (b : List Nat) : Nat → Nat → Finset Nat →
    Option (Except Err (List (List Char) × Nat))
  | 0, _, _ => none
  | f + 1, offset, seen =>
    let seen' := insert offset seen
    match scanSeg b (b.length + 1) offset with
    | none => none
    | some (.err e) => some (.error e)
    | some (.done parts ret) => some (.ok (parts, ret))
    | some (.jump pos ret parts) =>
      if pos ∈ seen' then some (.error .compressionCycle)
      else
        match decodeCall b f pos seen' with
        | none => none
        | some (.error e) => some (.error e)
        | some (.ok (parts₂, _)) => some (.ok (parts ++ parts₂, ret))

/-- `decode_name(buffer, offset)` (utils.py lines 19–42): scan labels
and follow compression pointers, collecting the label strings, and
return the dot-joined name together with the offset just past the first
terminator of the top-level label sequence.  The fuel
`buffer.length + 1` bounds the pointer-jump chain; `none` would mean
fuel exhaustion. -/
def decode_name (b : List Nat) (offset : Nat) :
    Option (Except Err (List Char × Nat)) :=
  match decodeCall b (b.length + 1) offset ∅ with
  | none => none
  | some (.error e) => some (.error e)
  | some (.ok (parts, ret)) => some (.ok (List.intercalate ['.'] parts, ret))

/-- The byte sequence produced by `encode_name` for a given list of
labels: for each label a length byte followed by the label's ASCII
bytes (utils.py lines 12–14). -/
def encodeParts (ps : List (List Char)) : List Nat :=
  (ps.map fun p => p.length :: p.map Char.toNat).flatten

/-- `encode_name(name)` (utils.py lines 9–16): split the name on `"."`,
emit each part as a length byte plus its ASCII bytes, and terminate
with a zero byte.  (`name.encode("ascii")` restricts the domain to
ASCII strings; theorems about this function carry that restriction as
a hypothesis.) -/
def encode_name (name : List Char) : List Nat :=
  encodeParts (name.splitOn '.') ++ [0]

/-- Big-endian 16-bit read, the `H` field of a `struct.unpack_from`
format.  Callers check the buffer length first, mirroring the length
check `struct.unpack_from` performs before reading. -/
def be16 (b : List Nat) (o : Nat) : Nat := b.getD o 0 * 256 + b.getD (o + 1) 0

/-- Big-endian 32-bit read, the `I` field of a `struct.unpack_from`
format. -/
def be32 (b : List Nat) (o : Nat) : Nat :=
  ((b.getD o 0 * 256 + b.getD (o + 1) 0) * 256 + b.getD (o + 2) 0) * 256
    + b.getD (o + 3) 0

/-- Python slice `buffer[s:e]` for `0 ≤ s`: clamps silently at the end
of the buffer and is empty when `e ≤ s`. -/
def pySlice (b : List Nat) (s e : Nat) : List Nat := (b.drop s).take (e - s)

/-- The `DnsType` enum of main.py lines 11–21. -/
inductive DnsType where
  | A | NS | CNAME | SOA | PTR | MX | TXT | RP | AAAA | SRV
deriving DecidableEq, Repr

/-- `DnsType(value)`: the enum lookup, `none` when Python would raise
`ValueError` because the value is not a member. -/
def DnsType.ofNat? : Nat → Option DnsType
  | 1 => some .A
  | 2 => some .NS
  | 5 => some .CNAME
  | 6 => some .SOA
  | 12 => some .PTR
  | 15 => some .MX
  | 16 => some .TXT
  | 17 => some .RP
  | 28 => some .AAAA
  | 33 => some .SRV
  | _ => none

/-- The `DnsClass` enum of main.py lines 24–25: its only member is
`IN = 1`. -/
inductive DnsClass where
  | IN
deriving DecidableEq, Repr

/-- `DnsClass(value)`: `none` when Python would raise `ValueError`
because the value is not a member (only `1` is). -/
def DnsClass.ofNat? : Nat → Option DnsClass
  | 1 => some .IN
  | _ => none

/-- `socket.inet_ntop(AF_INET, b)` on a 4-byte argument: the dotted
decimal text.  (Callers check the length 4 and map other lengths to
`ValueError`, as the library call does.) -/
def inet_ntop4 (seg : List Nat) : List Char :=
  List.intercalate ['.'] (seg.map fun x => (Nat.repr x).data)

/-- Modelled from the external `socket` library:
`socket.inet_ntop(AF_INET6, b)` on a 16-byte argument, rendered as
eight colon-separated lowercase hex groups.  The zero-run `::`
compression the platform library performs is not modelled; no theorem
in this development depends on the text of an IPv6 address. -/
def inet_ntop6 (seg : List Nat) : List Char :=
  List.intercalate [':']
    ((List.range 8).map fun i =>
      Nat.toDigits 16 (seg.getD (2 * i) 0 * 256 + seg.getD (2 * i + 1) 0))

/-- The record union of main.py: the base dataclass `Record` carries
`name` and `ttl`; the subclasses carry the variant payloads
(`RecordOther`, `RecordInetA`, `RecordInetAAAA`, `RecordInetCNAME`,
`RecordInetTXT`, `RecordInetPTR`, `RecordInetSRV`, `RecordInetMX`,
`RecordInetSOA`, main.py lines 93–180). -/
inductive Record where
  | other (name : List Char) (ttl : Nat) (typ : DnsType) (clas : DnsClass)
      (data : List Nat)
  | inetA (name : List Char) (ttl : Nat) (address : List Char)
  | inetAAAA (name : List Char) (ttl : Nat) (address : List Char)
  | inetCNAME (name : List Char) (ttl : Nat) (target : List Char)
  | inetTXT (name : List Char) (ttl : Nat) (text : List (List Char))
  | inetPTR (name : List Char) (ttl : Nat) (target : List Char)
  | inetSRV (name : List Char) (ttl : Nat) (priority weight port : Nat)
      (target : List Char)
  | inetMX (name : List Char) (ttl : Nat) (exchange : List Char)
      (preference : Nat)
  | inetSOA (name : List Char) (ttl : Nat)
      (masterName responsibleName : List Char)
      (serialNum refreshNum retryNum expireNum minimumNum : Nat)
deriving DecidableEq, Repr

/-- `RecordInetTXT.decode_strings(buffer, offset, end)` (main.py lines
122–127): `while offset < end:` read a length byte (raising
`IndexError` past the buffer end), slice that many following bytes
(Python slice, clamps silently), decode them as ASCII, and continue at
the position after the slice's declared extent.  The Python loop needs
no fuel; here an explicit fuel makes the recursion structural and
`none` marks fuel exhaustion, shown unreachable below for the fuel the
wrapper `decode_strings` passes. -/
def decodeStringsF (b : List Nat) (e : Nat) :
    Nat → Nat → Option (Except Err (List (List Char)))
  | 0, offset => if offset < e then none else some (.ok [])
  | f + 1, offset =>
    if offset < e then
      match b[offset]? with
      | none => some (.error .indexError)
      | some n =>
        let seg := (b.drop (offset + 1)).take n
        if seg.all (· < 128) then
          match decodeStringsF b e f (offset + 1 + n) with
          | none => none
          | some (.error err) => some (.error err)
          | some (.ok rest) => some (.ok (asciiChars seg :: rest))
        else some (.error .asciiError)
    else some (.ok [])

/-- Wrapper giving `decodeStringsF` the fuel `e - offset`, which
`decodeStringsF_ne_none` below shows is always enough (each loop
iteration advances the cursor by at least one). -/
def decode_strings (b : List Nat) (offset e : Nat) :
    Option (Except Err (List (List Char))) :=
  decodeStringsF b e (e - offset) offset

/-- `Record.decode(buffer, offset=offset)` (main.py lines 56–90):
decode the owner name, read the fixed `!HHIH` block (type, class, ttl,
data length — `struct.unpack_from` raises `struct.error` when fewer
than 10 bytes remain), compute `end = offset + data_len`, dispatch on
`(class, type)` exactly as the chain of `if` statements does, and fall
through to `RecordOther` built with the enum lookups `DnsType(typ)`
and `DnsClass(clas)` (each raising `ValueError` on a non-member value)
and the raw slice `buffer[offset:end]`.  Every branch returns `end` as
the new offset.  `none` propagates fuel exhaustion from `decode_name`
(shown impossible below). -/
def record_decode (b : List Nat) (offset : Nat) :
    Option (Except Err (Record × Nat)) :=
  match decode_name b offset with
  | none => none
  | some (.error e) => some (.error e)
  | some (.ok (name, o₁)) =>
    if o₁ + 10 ≤ b.length then
      let typ := be16 b o₁
      let clas := be16 b (o₁ + 2)
      let ttl := be32 b (o₁ + 4)
      let dataLen := be16 b (o₁ + 8)
      let o₂ := o₁ + 10
      let e := o₂ + dataLen
      let fallback : Option (Except Err (Record × Nat)) :=
        match DnsType.ofNat? typ with
        | none => some (.error .valueError)
        | some t =>
          match DnsClass.ofNat? clas with
          | none => some (.error .valueError)
          | some c => some (.ok (.other name ttl t c (pySlice b o₂ e), e))
      if clas = 1 then
        if typ = 1 ∧ dataLen = 4 then
          let seg := pySlice b o₂ e
          if seg.length = 4 then some (.ok (.inetA name ttl (inet_ntop4 seg), e))
          else some (.error .valueError)
        else if typ = 28 ∧ dataLen = 16 then
          let seg := pySlice b o₂ e
          if seg.length = 16 then
            some (.ok (.inetAAAA name ttl (inet_ntop6 seg), e))
          else some (.error .valueError)
        else if typ = 5 then
          match decode_name b o₂ with
          | none => none
          | some (.error err) => some (.error err)
          | some (.ok (target, _)) => some (.ok (.inetCNAME name ttl target, e))
        else if typ = 12 then
          match decode_name b o₂ with
          | none => none
          | some (.error err) => some (.error err)
          | some (.ok (target, _)) => some (.ok (.inetPTR name ttl target, e))
        else if typ = 6 then
          match decode_name b o₂ with
          | none => none
          | some (.error err) => some (.error err)
          | some (.ok (mname, o₃)) =>
            match decode_name b o₃ with
            | none => none
            | some (.error err) => some (.error err)
            | some (.ok (rname, o₄)) =>
              if o₄ + 20 ≤ b.length then
                some (.ok (.inetSOA name ttl mname rname
                  (be32 b o₄) (be32 b (o₄ + 4)) (be32 b (o₄ + 8))
                  (be32 b (o₄ + 12)) (be32 b (o₄ + 16)), e))
              else some (.error .structError)
        else if typ = 33 then
          if o₂ + 6 ≤ b.length then
            match decode_name b (o₂ + 6) with
            | none => none
            | some (.error err) => some (.error err)
            | some (.ok (target, _)) =>
              some (.ok (.inetSRV name ttl (be16 b o₂) (be16 b (o₂ + 2))
                (be16 b (o₂ + 4)) target, e))
          else some (.error .structError)
        else if typ = 16 then
          match decode_strings b o₂ e with
          | none => none
          | some (.error err) => some (.error err)
          | some (.ok strs) => some (.ok (.inetTXT name ttl strs, e))
        else if typ = 15 then
          if o₂ + 2 ≤ b.length then
            match decode_name b (o₂ + 2) with
            | none => none
            | some (.error err) => some (.error err)
            | some (.ok (exchange, _)) =>
              some (.ok (.inetMX name ttl exchange (be16 b o₂), e))
          else some (.error .structError)
        else fallback
      else fallback
    else some (.error .structError)

/-! ## Fuel sufficiency: the label scan and the TXT segment loop -/

theorem scanSeg_ne_none (b : List Nat) :
    ∀ f offset, b.length ≤ offset + f → scanSeg b f offset ≠ none := by
  intro f
  induction f with
  | zero =>
    intro offset h
    have hb : b[offset]? = none := List.getElem?_eq_none (by omega)
    simp [scanSeg, hb]
  | succ f ih =>
    intro offset h
    match hb : b[offset]? with
    | none => simp [scanSeg, hb]
    | some n =>
      simp only [scanSeg, hb]
      split
      · simp
      · split
        · match hb2 : b[offset + 1]? with
          | none => simp [hb2]
          | some m => simp [hb2]
        · split
          · have hnz := ih (offset + 1 + n) (by omega)
            match hs : scanSeg b f (offset + 1 + n) with
            | none => exact absurd hs hnz
            | some (.err e) => simp [hs]
            | some (.done ps r) => simp [hs]
            | some (.jump p r ps) => simp [hs]
          · simp

theorem decodeStringsF_ne_none (b : List Nat) (e : Nat) :
    ∀ f offset, e ≤ offset + f → decodeStringsF b e f offset ≠ none := by
  intro f
  induction f with
  | zero =>
    intro offset h
    have : ¬ offset < e := by omega
    simp [decodeStringsF, this]
  | succ f ih =>
    intro offset h
    by_cases hlt : offset < e
    · match hb : b[offset]? with
      | none => simp [decodeStringsF, hlt, hb]
      | some n =>
        simp only [decodeStringsF, hlt, if_pos, hb]
        split
        · have hnz := ih (offset + 1 + n) (by omega)
          match hs : decodeStringsF b e f (offset + 1 + n) with
          | none => exact absurd hs hnz
          | some (.error err) => simp [hs]
          | some (.ok rest) => simp [hs]
        · simp
    · simp [decodeStringsF, hlt]

/-- `decode_strings` never exhausts its fuel: each iteration of the
`while offset < end` loop advances the cursor by at least one byte. -/
theorem decode_strings_ne_none (b : List Nat) (offset e : Nat) :
    decode_strings b offset e ≠ none :=
  decodeStringsF_ne_none b e (e - offset) offset (by omega)

/-! ## Fuel sufficiency: the pointer-jump chain -/

/-- A scan that ends at a compression pointer read its entry byte, so
the entry offset is inside the buffer. -/
theorem scanSeg_jump_lt (b : List Nat) (f offset pos ret : Nat)
    (ps : List (List Char)) (h : scanSeg b f offset = some (.jump pos ret ps)) :
    offset < b.length := by
  by_contra hge
  have hb : b[offset]? = none := List.getElem?_eq_none (by omega)
  cases f <;> simp [scanSeg, hb] at h

/-- Each pointer jump enters `decode` at an offset not yet in `seen`
and adds it, so the number of jumps is bounded by the number of
in-range offsets outside `seen`: fuel beyond that bound is never
exhausted. -/
theorem decodeCall_ne_none (b : List Nat) :
    ∀ f offset seen, offset ∉ seen →
      (Finset.range b.length \ seen).card < f →
      decodeCall b f offset seen ≠ none := by
  intro f
  induction f with
  | zero =>
    intro offset seen _ hcard
    exact absurd hcard (Nat.not_lt_zero _)
  | succ f ih =>
    intro offset seen ho hcard
    have hscan := scanSeg_ne_none b (b.length + 1) offset (by omega)
    match hs : scanSeg b (b.length + 1) offset with
    | none => exact absurd hs hscan
    | some (.err e) => simp [decodeCall, hs]
    | some (.done ps r) => simp [decodeCall, hs]
    | some (.jump pos r ps) =>
      simp only [decodeCall, hs]
      by_cases hmem : pos ∈ insert offset seen
      · simp [hmem]
      · have hlt : offset < b.length := scanSeg_jump_lt b _ _ _ _ _ hs
        have hin : offset ∈ Finset.range b.length \ seen := by
          simp only [Finset.mem_sdiff, Finset.mem_range]
          exact ⟨hlt, ho⟩
        have hsub : Finset.range b.length \ insert offset seen ⊆
            Finset.range b.length \ seen :=
          Finset.sdiff_subset_sdiff (le_refl _) (Finset.subset_insert _ _)
        have hss : Finset.range b.length \ insert offset seen ⊂
            Finset.range b.length \ seen :=
          (Finset.ssubset_iff_of_subset hsub).mpr
            ⟨offset, hin, by simp⟩
        have hcard2 : (Finset.range b.length \ insert offset seen).card < f := by
          have := Finset.card_lt_card hss
          omega
        have hnz := ih pos (insert offset seen) hmem hcard2
        simp only [hmem, if_false]
        match hd : decodeCall b f pos (insert offset seen) with
        | none => exact absurd hd hnz
        | some (.error e) => simp [hd]
        | some (.ok pr) => simp [hd]

/-- **C10**: for every finite buffer and every starting offset,
`decode_name` terminates — it returns a value or raises, never
exhausting the fuel `buffer.length + 1`: each compression-pointer jump
target is added to the visited set before it is followed and a
revisited target raises, so the number of jumps is bounded by the
buffer's offset space, and each label scan strictly advances the
cursor. -/
theorem decode_name_terminates (b : List Nat) (offset : Nat) :
    ∃ r, decode_name b offset = some r := by
  have h := decodeCall_ne_none b (b.length + 1) offset ∅ (by simp)
    (by simp [Finset.sdiff_empty])
  match hd : decodeCall b (b.length + 1) offset ∅ with
  | none => exact absurd hd h
  | some (.error e) => exact ⟨.error e, by simp [decode_name, hd]⟩
  | some (.ok (parts, ret)) =>
    exact ⟨.ok (List.intercalate ['.'] parts, ret), by simp [decode_name, hd]⟩

theorem isPointerByte_ne_zero {n : Nat} (h : isPointerByte n = true) :
    n ≠ 0 := by
  intro h0
  rw [h0] at h
  simp [isPointerByte] at h

/-- **C2**: a compression-pointer chain that revisits an
already-visited offset makes `decode_name` fail with the compression
cycle error (`ValueError` in the source) rather than hang: first
conjunct, a length-1 cycle (a pointer at the start offset whose 14-bit
target is that same offset); second conjunct, a length-2 cycle (a
pointer at the start offset targeting a different offset `p` holding a
pointer back to the start). -/
theorem decode_name_cycle :
    (∀ (b : List Nat) (o n m : Nat), b[o]? = some n → b[o + 1]? = some m →
        isPointerByte n = true → ((n &&& 63) <<< 8) + m = o →
        decode_name b o = some (.error .compressionCycle)) ∧
    (∀ (b : List Nat) (o p n₁ m₁ n₂ m₂ : Nat),
        b[o]? = some n₁ → b[o + 1]? = some m₁ → isPointerByte n₁ = true →
        ((n₁ &&& 63) <<< 8) + m₁ = p → p ≠ o →
        b[p]? = some n₂ → b[p + 1]? = some m₂ → isPointerByte n₂ = true →
        ((n₂ &&& 63) <<< 8) + m₂ = o →
        decode_name b o = some (.error .compressionCycle)) := by
  constructor
  · intro b o n m h1 h2 hp hpos
    have hn0 : ¬ n = 0 := isPointerByte_ne_zero hp
    simp [decode_name, decodeCall, scanSeg, h1, h2, hn0, hp, hpos]
  · intro b o p n₁ m₁ n₂ m₂ h1 h2 hp1 hpos1 hne h3 h4 hp2 hpos2
    have hn1 : ¬ n₁ = 0 := isPointerByte_ne_zero hp1
    have hn2 : ¬ n₂ = 0 := isPointerByte_ne_zero hp2
    have hlen : o + 1 < b.length := (List.getElem?_eq_some.mp h2).1
    obtain ⟨k, hk⟩ : ∃ k, b.length = k + 1 := ⟨b.length - 1, by omega⟩
    simp [decode_name, decodeCall, scanSeg, hk, h1, h2, h3, h4, hn1, hn2,
      hp1, hp2, hpos1, hpos2, hne, Finset.mem_insert]

/-- Witness for C2: the self-pointing buffer `C0 00` and the two-cycle
buffer `C0 02 C0 00` both decode to the compression-cycle error. -/
theorem decode_name_cycle_witness :
    decode_name [192, 0] 0 = some (.error .compressionCycle) ∧
    decode_name [192, 2, 192, 0] 0 = some (.error .compressionCycle) :=
  ⟨decode_name_cycle.1 [192, 0] 0 192 0 rfl rfl (by decide) (by decide),
   decode_name_cycle.2 [192, 2, 192, 0] 0 2 192 2 192 0 rfl rfl (by decide)
     (by decide) (by decide) rfl rfl (by decide) (by decide)⟩

/-! ## Round trip of name encoding -/

theorem land_192_eq_zero : ∀ n, n ≤ 63 → n &&& 192 = 0 := by decide

theorem encodeParts_length (ps : List (List Char)) :
    ps.length ≤ (encodeParts ps).length := by
  induction ps with
  | nil => simp [encodeParts]
  | cons p ps ih => simp [encodeParts] at ih ⊢; omega

/-- Scanning a buffer whose suffix at `o` is a well-formed sequence of
encoded labels (each nonempty, at most 63 bytes, ASCII) followed by
the zero terminator recovers exactly those labels and stops just past
the terminator. -/
theorem scanSeg_encodeParts (b : List Nat) :
    ∀ (ps : List (List Char)) (o f : Nat),
      b.drop o = encodeParts ps ++ [0] →
      (∀ p ∈ ps, p ≠ [] ∧ p.length ≤ 63 ∧ ∀ c ∈ p, c.toNat < 128) →
      ps.length < f →
      scanSeg b f o = some (.done ps (o + (encodeParts ps).length + 1)) := by
  intro ps
  induction ps with
  | nil =>
    intro o f hdrop _ hf
    obtain ⟨f', rfl⟩ : ∃ f', f = f' + 1 := ⟨f - 1, by omega⟩
    have hb : b[o]? = some 0 := by
      have : (b.drop o)[0]? = some 0 := by rw [hdrop]; simp [encodeParts]
      rwa [List.getElem?_drop] at this
    simp [scanSeg, hb, encodeParts]
  | cons p ps ih =>
    intro o f hdrop hcond hf
    obtain ⟨f', rfl⟩ : ∃ f', f = f' + 1 := ⟨f - 1, by omega⟩
    obtain ⟨hpne, hplen, hpascii⟩ := hcond p (by simp)
    have hdropo : b.drop o =
        p.length :: (p.map Char.toNat ++ (encodeParts ps ++ [0])) := by
      rw [hdrop]; simp [encodeParts]
    have hb : b[o]? = some p.length := by
      have : (b.drop o)[0]? = some p.length := by rw [hdropo]; simp
      rwa [List.getElem?_drop] at this
    have hplen0 : ¬ p.length = 0 := by
      simpa using hpne
    have hnoptr : isPointerByte p.length = false := by
      simp [isPointerByte, land_192_eq_zero p.length hplen]
    have hdrop1 : b.drop (o + 1) =
        p.map Char.toNat ++ (encodeParts ps ++ [0]) := by
      have : (b.drop o).drop 1 = b.drop (o + 1) := by
        rw [List.drop_drop]
      rw [← this, hdropo]
      simp
    have hseg : (b.drop (o + 1)).take p.length = p.map Char.toNat := by
      rw [hdrop1]
      exact List.take_left' (by simp)
    have hsegall : ((b.drop (o + 1)).take p.length).all (· < 128) := by
      rw [hseg]
      simp only [List.all_eq_true, List.mem_map]
      rintro x ⟨c, hc, rfl⟩
      simpa using hpascii c hc
    have hdropnext : b.drop (o + 1 + p.length) = encodeParts ps ++ [0] := by
      have h1 : (b.drop (o + 1)).drop p.length = b.drop (o + 1 + p.length) := by
        rw [List.drop_drop]
      rw [← h1, hdrop1, List.drop_left' (by simp)]
    have hrec := ih (o + 1 + p.length) f' hdropnext
      (fun q hq => hcond q (by simp [hq])) (by simp at hf; omega)
    have hchars : asciiChars ((b.drop (o + 1)).take p.length) = p := by
      rw [hseg]
      simp [asciiChars, List.map_map, Function.comp_def]
    simp only [scanSeg, hb, hplen0, if_false, hnoptr, Bool.false_eq_true,
      hsegall, if_true, hrec, hchars]
    have : o + 1 + p.length + (encodeParts ps).length + 1 =
        o + (encodeParts (p :: ps)).length + 1 := by
      simp [encodeParts]
      omega
    rw [this]

/-- **C3**: for every domain name made of nonempty ASCII labels of at
most 63 bytes each (stated on the parts `name.split(".")` produces),
decoding the encoding returns the original name, with the final offset
at the end of the encoded bytes. -/
theorem decode_encode_roundtrip (name : List Char)
    (hne : ∀ p ∈ name.splitOn '.', p ≠ [])
    (hlen : ∀ p ∈ name.splitOn '.', p.length ≤ 63)
    (hascii : ∀ p ∈ name.splitOn '.', ∀ c ∈ p, c.toNat < 128) :
    decode_name (encode_name name) 0 =
      some (.ok (name, (encode_name name).length)) := by
  have hlenps : (name.splitOn '.').length < (encode_name name).length + 1 := by
    have := encodeParts_length (name.splitOn '.')
    simp only [encode_name, List.length_append, List.length_singleton]
    omega
  have hscan := scanSeg_encodeParts (encode_name name) (name.splitOn '.') 0
    ((encode_name name).length + 1) (by simp [encode_name])
    (fun p hp => ⟨hne p hp, hlen p hp, hascii p hp⟩) hlenps
  simp only [decode_name, decodeCall, hscan]
  rw [List.intercalate_splitOn]
  congr 2
  simp [encode_name]

/-- Witness for C3: the name `abc.de` round-trips. -/
theorem decode_encode_roundtrip_witness :
    decode_name (encode_name ['a','b','c','.','d','e']) 0 =
      some (.ok (['a','b','c','.','d','e'],
        (encode_name ['a','b','c','.','d','e']).length)) :=
  decode_encode_roundtrip ['a','b','c','.','d','e'] (by decide) (by decide)
    (by decide)

/-! ## The compression-pointer test -/

/-- **C4 counterexample**: the byte `0x40 = 0b01000000` has only one of
the top two bits set, yet `decode_name` treats it as a compression
pointer: on the buffer `40 00` it computes the pointer target
`((0x40 & 0x3F) << 8) + 0 = 0` and fails with the compression-cycle
error, which only the pointer branch can raise (under the claimed
semantics `0x40` would be a label length and decoding would fail with
an out-of-range read instead). -/
theorem pointer_test_one_bit :
    isPointerByte 64 = true ∧ ¬ (64 &&& 192 = 192) ∧
      decode_name [64, 0] 0 = some (.error .compressionCycle) := by decide

set_option maxRecDepth 4096 in
/-- **C4 amended**: a label-length byte is treated as a 14-bit
compression pointer if and only if at least one of its top two bits is
set (`n & 0b11000000` nonzero), not only when both are. -/
theorem pointer_test_any_top_bit (n : Nat) (h : n < 256) :
    isPointerByte n = true ↔ (n.testBit 7 = true ∨ n.testBit 6 = true) := by
  revert h
  revert n
  decide

/-- Witness for the amended C4: `0x40` has bit 6 set and is a pointer
byte. -/
theorem pointer_test_any_top_bit_witness :
    isPointerByte 64 = true ↔
      (Nat.testBit 64 7 = true ∨ Nat.testBit 64 6 = true) :=
  pointer_test_any_top_bit 64 (by decide)

/-! ## The opaque record fallback -/

/-- **C1** (code bug): the opaque fallback constructs
`DnsType(typ)` and `DnsClass(clas)`, which raise `ValueError` for any
value that is not an enum member.  First conjunct: a record with class
`3` (CH, not IN) raises instead of producing `RecordOther`.  Second
conjunct: a record with class IN and the unmodeled type `3` (MD)
likewise raises. -/
theorem record_decode_unknown_enum_value_error :
    record_decode [0, 0,1, 0,3, 0,0,0,0, 0,0] 0 = some (.error .valueError) ∧
    record_decode [0, 0,3, 0,1, 0,0,0,0, 0,0] 0 = some (.error .valueError) := by
  decide

/-! ## NS records decode as the opaque variant -/

/-- **C5 counterexample**: an IN NS record whose rdata is the encoded
name `ns` decodes to `RecordOther` carrying the raw rdata bytes — not
to a typed variant with a decoded `target` — because `Record.decode`
dispatches on CNAME and PTR but not on NS. -/
theorem ns_record_not_typed :
    record_decode [0, 0,2, 0,1, 0,0,0,0, 0,4, 3,110,115,0] 0 =
      some (.ok (.other [] 0 .NS .IN [3,110,115,0], 15)) := by decide

/-- Shared helper: every IN record of type NS (type value 2) whose
fixed header is in range falls through the dispatch to the opaque
`RecordOther` branch. -/
theorem record_decode_in_ns_aux (b : List Nat) (offset : Nat)
    (nm : List Char) (o₁ : Nat)
    (hdec : decode_name b offset = some (.ok (nm, o₁)))
    (hlen : o₁ + 10 ≤ b.length)
    (htyp : be16 b o₁ = 2) (hclas : be16 b (o₁ + 2) = 1) :
    record_decode b offset = some (.ok (.other nm (be32 b (o₁ + 4)) .NS .IN
      (pySlice b (o₁ + 10) (o₁ + 10 + be16 b (o₁ + 8))),
      o₁ + 10 + be16 b (o₁ + 8))) := by
  have hT : DnsType.ofNat? 2 = some .NS := rfl
  have hC : DnsClass.ofNat? 1 = some .IN := rfl
  simp only [record_decode, hdec, htyp, hclas, hT, hC, if_pos hlen]
  norm_num

/-- **C5 amended**: every IN record of type NS (type value 2) whose
fixed header is in range decodes to the opaque `RecordOther` variant
carrying the raw rdata slice of the declared length, never to a typed
variant with a decoded target. -/
theorem ns_record_falls_to_other (b : List Nat) (offset : Nat)
    (nm : List Char) (o₁ : Nat)
    (hdec : decode_name b offset = some (.ok (nm, o₁)))
    (hlen : o₁ + 10 ≤ b.length)
    (htyp : be16 b o₁ = 2) (hclas : be16 b (o₁ + 2) = 1) :
    record_decode b offset = some (.ok (.other nm (be32 b (o₁ + 4)) .NS .IN
      (pySlice b (o₁ + 10) (o₁ + 10 + be16 b (o₁ + 8))),
      o₁ + 10 + be16 b (o₁ + 8))) :=
  record_decode_in_ns_aux b offset nm o₁ hdec hlen htyp hclas

/-- Witness for the amended C5, at the same IN NS record as the
counterexample. -/
theorem ns_record_falls_to_other_witness :
    record_decode [0, 0,2, 0,1, 0,0,0,0, 0,4, 3,110,115,0] 0 =
      some (.ok (.other [] (be32 [0, 0,2, 0,1, 0,0,0,0, 0,4, 3,110,115,0] 5)
        .NS .IN (pySlice [0, 0,2, 0,1, 0,0,0,0, 0,4, 3,110,115,0] 11
          (11 + be16 [0, 0,2, 0,1, 0,0,0,0, 0,4, 3,110,115,0] 9)),
        11 + be16 [0, 0,2, 0,1, 0,0,0,0, 0,4, 3,110,115,0] 9)) :=
  ns_record_falls_to_other [0, 0,2, 0,1, 0,0,0,0, 0,4, 3,110,115,0] 0 [] 1
    (by decide) (by decide) (by decide) (by decide)

/-! ## Record boundary discipline -/

set_option maxHeartbeats 1600000 in
/-- **C6**: whenever `Record.decode` succeeds, the returned offset is
`data_offset + data_length` as declared in the fixed header (the name
end `o₁` plus the 10 header bytes plus the declared data length read
at `o₁ + 8`), for every variant and independent of how many bytes the
variant-specific sub-decode consumed. -/
theorem record_decode_end_offset (b : List Nat) (offset : Nat) (r : Record)
    (o' : Nat) (h : record_decode b offset = some (.ok (r, o'))) :
    ∃ nm o₁, decode_name b offset = some (.ok (nm, o₁)) ∧
      o' = o₁ + 10 + be16 b (o₁ + 8) := by
  unfold record_decode at h
  match hdec : decode_name b offset with
  | none => rw [hdec] at h; exact absurd h (by simp)
  | some (.error e) => rw [hdec] at h; exact absurd h (by simp)
  | some (.ok (nm, o₁)) =>
    rw [hdec] at h
    refine ⟨nm, o₁, rfl, ?_⟩
    simp only at h
    by_cases hg : o₁ + 10 ≤ b.length
    case neg => rw [if_neg hg] at h; exact absurd h (by simp)
    rw [if_pos hg] at h
    by_cases hclas : be16 b (o₁ + 2) = 1
    case neg =>
      rw [if_neg hclas] at h
      match hT : DnsType.ofNat? (be16 b o₁) with
      | none => simp only [hT] at h; exact absurd h (by simp)
      | some t =>
        simp only [hT] at h
        match hC : DnsClass.ofNat? (be16 b (o₁ + 2)) with
        | none => simp only [hC] at h; exact absurd h (by simp)
        | some c =>
          simp only [hC, Option.some.injEq, Except.ok.injEq,
            Prod.mk.injEq] at h
          exact h.2.symm
    rw [if_pos hclas] at h
    by_cases h1 : be16 b o₁ = 1 ∧ be16 b (o₁ + 8) = 4
    case pos =>
      rw [if_pos h1] at h
      by_cases hs : (pySlice b (o₁ + 10) (o₁ + 10 + be16 b (o₁ + 8))).length = 4
      case neg => rw [if_neg hs] at h; exact absurd h (by simp)
      rw [if_pos hs] at h
      simp only [Option.some.injEq, Except.ok.injEq, Prod.mk.injEq] at h
      exact h.2.symm
    rw [if_neg h1] at h
    by_cases h2 : be16 b o₁ = 28 ∧ be16 b (o₁ + 8) = 16
    case pos =>
      rw [if_pos h2] at h
      by_cases hs : (pySlice b (o₁ + 10) (o₁ + 10 + be16 b (o₁ + 8))).length = 16
      case neg => rw [if_neg hs] at h; exact absurd h (by simp)
      rw [if_pos hs] at h
      simp only [Option.some.injEq, Except.ok.injEq, Prod.mk.injEq] at h
      exact h.2.symm
    rw [if_neg h2] at h
    by_cases h3 : be16 b o₁ = 5
    case pos =>
      rw [if_pos h3] at h
      match hcn : decode_name b (o₁ + 10) with
      | none => simp only [hcn] at h; exact absurd h (by simp)
      | some (.error e2) => simp only [hcn] at h; exact absurd h (by simp)
      | some (.ok pr) =>
        obtain ⟨tg, o₃⟩ := pr
        simp only [hcn, Option.some.injEq, Except.ok.injEq, Prod.mk.injEq] at h
        exact h.2.symm
    rw [if_neg h3] at h
    by_cases h4 : be16 b o₁ = 12
    case pos =>
      rw [if_pos h4] at h
      match hcn : decode_name b (o₁ + 10) with
      | none => simp only [hcn] at h; exact absurd h (by simp)
      | some (.error e2) => simp only [hcn] at h; exact absurd h (by simp)
      | some (.ok pr) =>
        obtain ⟨tg, o₃⟩ := pr
        simp only [hcn, Option.some.injEq, Except.ok.injEq, Prod.mk.injEq] at h
        exact h.2.symm
    rw [if_neg h4] at h
    by_cases h5 : be16 b o₁ = 6
    case pos =>
      rw [if_pos h5] at h
      match hm : decode_name b (o₁ + 10) with
      | none => simp only [hm] at h; exact absurd h (by simp)
      | some (.error e2) => simp only [hm] at h; exact absurd h (by simp)
      | some (.ok pr) =>
        obtain ⟨mn, o₃⟩ := pr
        simp only [hm] at h
        match hr : decode_name b o₃ with
        | none => simp only [hr] at h; exact absurd h (by simp)
        | some (.error e2) => simp only [hr] at h; exact absurd h (by simp)
        | some (.ok pr2) =>
          obtain ⟨rn, o₄⟩ := pr2
          simp only [hr] at h
          by_cases hg2 : o₄ + 20 ≤ b.length
          case neg => rw [if_neg hg2] at h; exact absurd h (by simp)
          rw [if_pos hg2] at h
          simp only [Option.some.injEq, Except.ok.injEq, Prod.mk.injEq] at h
          exact h.2.symm
    rw [if_neg h5] at h
    by_cases h6 : be16 b o₁ = 33
    case pos =>
      rw [if_pos h6] at h
      by_cases hg2 : o₁ + 10 + 6 ≤ b.length
      case neg => rw [if_neg hg2] at h; exact absurd h (by simp)
      rw [if_pos hg2] at h
      match hcn : decode_name b (o₁ + 10 + 6) with
      | none => simp only [hcn] at h; exact absurd h (by simp)
      | some (.error e2) => simp only [hcn] at h; exact absurd h (by simp)
      | some (.ok pr) =>
        obtain ⟨tg, o₃⟩ := pr
        simp only [hcn, Option.some.injEq, Except.ok.injEq, Prod.mk.injEq] at h
        exact h.2.symm
    rw [if_neg h6] at h
    by_cases h7 : be16 b o₁ = 16
    case pos =>
      rw [if_pos h7] at h
      match hts : decode_strings b (o₁ + 10) (o₁ + 10 + be16 b (o₁ + 8)) with
      | none => simp only [hts] at h; exact absurd h (by simp)
      | some (.error e2) => simp only [hts] at h; exact absurd h (by simp)
      | some (.ok strs) =>
        simp only [hts, Option.some.injEq, Except.ok.injEq, Prod.mk.injEq] at h
        exact h.2.symm
    rw [if_neg h7] at h
    by_cases h8 : be16 b o₁ = 15
    case pos =>
      rw [if_pos h8] at h
      by_cases hg2 : o₁ + 10 + 2 ≤ b.length
      case neg => rw [if_neg hg2] at h; exact absurd h (by simp)
      rw [if_pos hg2] at h
      match hcn : decode_name b (o₁ + 10 + 2) with
      | none => simp only [hcn] at h; exact absurd h (by simp)
      | some (.error e2) => simp only [hcn] at h; exact absurd h (by simp)
      | some (.ok pr) =>
        obtain ⟨ex, o₃⟩ := pr
        simp only [hcn, Option.some.injEq, Except.ok.injEq, Prod.mk.injEq] at h
        exact h.2.symm
    rw [if_neg h8] at h
    match hT : DnsType.ofNat? (be16 b o₁) with
    | none => simp only [hT] at h; exact absurd h (by simp)
    | some t =>
      simp only [hT] at h
      match hC : DnsClass.ofNat? (be16 b (o₁ + 2)) with
      | none => simp only [hC] at h; exact absurd h (by simp)
      | some c =>
        simp only [hC, Option.some.injEq, Except.ok.injEq, Prod.mk.injEq] at h
        exact h.2.symm

/-- Witness for C6: a zero-length IN NS record at offset 0 ends at
offset 11 = 1 (name) + 10 (header) + 0 (data). -/
theorem record_decode_end_offset_witness :
    ∃ nm o₁, decode_name [0, 0,2, 0,1, 0,0,0,0, 0,0] 0 =
        some (.ok (nm, o₁)) ∧
      11 = o₁ + 10 + be16 [0, 0,2, 0,1, 0,0,0,0, 0,0] (o₁ + 8) :=
  record_decode_end_offset [0, 0,2, 0,1, 0,0,0,0, 0,0] 0
    (.other [] 0 .NS .IN []) 11 (by decide)

/-! ## Oversized declared data length -/

/-- **C7 counterexample**: a record whose declared rdlength `5` extends
past the 13-byte buffer decodes *successfully* — no `TruncatedBuffer`
error — as `RecordOther` whose data is the 2 remaining bytes only
(silently truncated by the Python slice), with the returned offset 16
pointing past the end of the buffer. -/
theorem record_decode_truncation_counterexample :
    record_decode [0, 0,2, 0,1, 0,0,0,0, 0,5, 65,66] 0 =
      some (.ok (.other [] 0 .NS .IN [65,66], 16)) ∧
    ([0, 0,2, 0,1, 0,0,0,0, 0,5, 65,66] : List Nat).length = 13 ∧
    ([65,66] : List Nat).length < 5 := by decide

/-- Helper: decoding a name at a buffer whose first byte is the zero
terminator yields the empty name and offset 1. -/
theorem decode_name_zero_head (rest : List Nat) :
    decode_name (0 :: rest) 0 = some (.ok ([], 1)) := by
  simp [decode_name, decodeCall, scanSeg, List.intercalate]

set_option maxRecDepth 8192 in
/-- **C7 amended**: on the opaque fallback path, a declared rdlength
`dl` larger than the available data does not fail: `Record.decode`
returns `RecordOther` carrying only the bytes actually present (the
Python slice clamps at the buffer end, so no out-of-range read occurs)
and reports the end offset `data_offset + dl`, which lies beyond the
buffer.  The truncated-header case (fewer than 10 bytes for the fixed
block) is the only rdlength-related failure, raising `struct.error`. -/
theorem record_decode_oversized_rdlength (d : List Nat) (dl : Nat)
    (hshort : d.length < dl) (hdl : dl < 65536) :
    record_decode
        (0 :: 0 :: 2 :: 0 :: 1 :: 0 :: 0 :: 0 :: 0 :: dl / 256 :: dl % 256 :: d)
        0 =
      some (.ok (.other [] 0 .NS .IN d, 11 + dl)) ∧
    (0 :: 0 :: 2 :: 0 :: 1 :: 0 :: 0 :: 0 :: 0 :: dl / 256 :: dl % 256 :: d
      : List Nat).length < 11 + dl := by
  refine ⟨?_, by simp; omega⟩
  have h := record_decode_in_ns_aux
    (0 :: 0 :: 2 :: 0 :: 1 :: 0 :: 0 :: 0 :: 0 :: dl / 256 :: dl % 256 :: d) 0
    [] 1 (decode_name_zero_head _) (by simp) (by simp [be16]) (by simp [be16])
  have hdl9 :
      be16 (0 :: 0 :: 2 :: 0 :: 1 :: 0 :: 0 :: 0 :: 0 :: dl / 256 :: dl % 256 :: d)
        (1 + 8) = dl := by
    simp [be16]
    omega
  have httl :
      be32 (0 :: 0 :: 2 :: 0 :: 1 :: 0 :: 0 :: 0 :: 0 :: dl / 256 :: dl % 256 :: d)
        (1 + 4) = 0 := by
    simp [be32]
  rw [hdl9, httl] at h
  have hslice :
      pySlice (0 :: 0 :: 2 :: 0 :: 1 :: 0 :: 0 :: 0 :: 0 :: dl / 256 :: dl % 256 :: d)
        (1 + 10) (1 + 10 + dl) = d := by
    simp only [pySlice]
    have hd : (0 :: 0 :: 2 :: 0 :: 1 :: 0 :: 0 :: 0 :: 0 :: dl / 256 :: dl % 256 :: d
      : List Nat).drop (1 + 10) = d := by simp
    rw [hd]
    have he : 1 + 10 + dl - (1 + 10) = dl := by omega
    rw [he]
    exact List.take_of_length_le (by omega)
  rw [hslice] at h
  have harith : 1 + 10 + dl = 11 + dl := by omega
  rw [harith] at h
  exact h

/-- Witness for the amended C7: declared length 5 over 2 available
bytes. -/
theorem record_decode_oversized_rdlength_witness :
    record_decode
        (0 :: 0 :: 2 :: 0 :: 1 :: 0 :: 0 :: 0 :: 0 :: 5 / 256 :: 5 % 256
          :: [65, 66]) 0 =
      some (.ok (.other [] 0 .NS .IN [65, 66], 11 + 5)) ∧
    (0 :: 0 :: 2 :: 0 :: 1 :: 0 :: 0 :: 0 :: 0 :: 5 / 256 :: 5 % 256
      :: [65, 66] : List Nat).length < 11 + 5 :=
  record_decode_oversized_rdlength [65, 66] 5 (by decide) (by decide)

/-! ## TXT segmentation -/

/-- **C8 counterexample**: a TXT segment whose declared length `2`
overruns the 2-byte record boundary (`data_offset 11`, `rdlength 2`,
so the record ends at 13) does not fail with `TruncatedBuffer`: the
segment is read *past the record boundary* — the decoded text `AB`
includes the byte `66` that lies at offset 13, outside the record's
data span — and the record decodes successfully. -/
theorem txt_segment_overrun_counterexample :
    record_decode [0, 0,16, 0,1, 0,0,0,0, 0,2, 2,65, 66] 0 =
      some (.ok (.inetTXT [] 0 [['A', 'B']], 13)) := by decide

/-- **C8 amended**: TXT decoding reads consecutive length-prefixed
ASCII segments while the cursor is below `data_offset + data_length`
(first two conjuncts: the spec's example `03 61 62 63 02 64 65`
decodes to `["abc", "de"]`, both directly and inside a record); a
segment whose declared length would overrun the record boundary is
*not* an error — it is read past the boundary and the loop then stops
(third conjunct); `IndexError` (a truncation error) arises only when
the cursor is below the boundary but past the end of the buffer
(fourth conjunct). -/
theorem txt_segments_amended :
    decode_strings [3,97,98,99,2,100,101] 0 7 =
      some (.ok [['a','b','c'], ['d','e']]) ∧
    record_decode [0, 0,16, 0,1, 0,0,0,0, 0,7, 3,97,98,99,2,100,101] 0 =
      some (.ok (.inetTXT [] 0 [['a','b','c'], ['d','e']], 18)) ∧
    decode_strings [2,65,66] 0 2 = some (.ok [['A','B']]) ∧
    decode_strings [1,65] 0 5 = some (.error .indexError) := by decide

/-! ## The resolver (modelled from the spec)

The resolver described in §4.4 of the specification is not present in
the source files: main.py ends in a stub that sends a single query to
`8.8.8.8` and prints the answers.  The definitions below are therefore
modelled from the specification's words alone and carry no fidelity to
source code. -/

/-- Modelled from the spec: the per-record view the resolver's
decision step needs — an answer/additional address record (A or AAAA)
or an authority NS record with its nameserver name; every other record
shape is irrelevant to §4.4 and collapses to `otherRR`. -/
inductive RRView where
  | a (addr : List Char)
  | aaaa (addr : List Char)
  | ns (target : List Char)
  | otherRR
deriving DecidableEq, Repr

/-- Modelled from the spec: the three record sections of a decoded
reply that the resolver's decision step inspects. -/
structure Reply where
  answers : List RRView
  authorities : List RRView
  additionals : List RRView
deriving DecidableEq, Repr

/-- Modelled from the spec (§7): the resolver's failure modes
`NoResolutionPath` and `ResolutionDepthExceeded`. -/
inductive ResolveErr where
  | noResolutionPath
  | resolutionDepthExceeded
deriving DecidableEq, Repr

/-- Modelled from the spec: §4.4 step 3a — the address of the first
Answer record of type A, or of type AAAA when AAAA was requested. -/
def firstAnswer (wantAAAA : Bool) (rs : List RRView) : Option (List Char) :=
  rs.findSome? fun r =>
    match r with
    | .a addr => some addr
    | .aaaa addr => if wantAAAA then some addr else none
    | _ => none

/-- Modelled from the spec: §4.4 step 3b — the address of the first
Additional record of type A. -/
def firstAdditionalA (rs : List RRView) : Option (List Char) :=
  rs.findSome? fun r =>
    match r with
    | .a addr => some addr
    | _ => none

/-- Modelled from the spec: §4.4 step 3c — the nameserver name of the
first Authority record of type NS. -/
def firstAuthorityNS (rs : List RRView) : Option (List Char) :=
  rs.findSome? fun r =>
    match r with
    | .ns t => some t
    | _ => none

/-- Modelled from the spec: the outcome of the decision §4.4 step 3
takes on one decoded reply, in priority order 3a–3d. -/
inductive ResolveAction where
  | done (addr : List Char)
  | switch (addr : List Char)
  | recurse (nsname : List Char)
  | fail
deriving DecidableEq, Repr

/-- Modelled from the spec: §4.4 step 3 — decide a reply in priority
order: a matching answer wins, else a usable additional A address,
else an authority NS name to resolve, else failure. -/
def resolveStep (wantAAAA : Bool) (reply : Reply) : ResolveAction :=
  match firstAnswer wantAAAA reply.answers with
  | some addr => .done addr
  | none =>
    match firstAdditionalA reply.additionals with
    | some addr => .switch addr
    | none =>
      match firstAuthorityNS reply.authorities with
      | some t => .recurse t
      | none => .fail

/-- Modelled from the spec: the §4.4 resolution loop over the
"current nameserver" state.  The transport shim and message codec are
abstracted as `net server qname wantAAAA`, the decoded reply to one
query; `root` is the well-known root server the fresh top-level call
of step 3c starts from; the fuel is the defensive
maximum-iteration/recursion guard §4.4 recommends, failing with
`ResolutionDepthExceeded`. -/
def resolve (net : List Char → List Char → Bool → Reply) (root : List Char) :
    Nat → List Char → List Char → Bool → Except ResolveErr (List Char)
  | 0, _, _, _ => .error .resolutionDepthExceeded
  | fuel + 1, server, qname, wantAAAA =>
    match resolveStep wantAAAA (net server qname wantAAAA) with
    | .done addr => .ok addr
    | .switch addr => resolve net root fuel addr qname wantAAAA
    | .recurse nsname =>
      match resolve net root fuel root nsname false with
      | .error e => .error e
      | .ok addr => resolve net root fuel addr qname wantAAAA
    | .fail => .error .noResolutionPath

/-- **C9** (modelled from the spec, the resolver being absent from the
source): one iteration of `resolve` decides the decoded reply in
priority order — (a) the first matching Answer address is returned as
terminal success; (b) otherwise a usable Additional A address becomes
the current nameserver for the next iteration; (c) otherwise the first
Authority NS name is resolved by a fresh top-level call from the root
and its result becomes the current nameserver; (d) otherwise the
resolution fails with `NoResolutionPath`. -/
theorem resolve_priority (net : List Char → List Char → Bool → Reply)
    (root : List Char) (fuel : Nat) (server qname : List Char)
    (w : Bool) :
    (∀ addr, firstAnswer w (net server qname w).answers = some addr →
      resolve net root (fuel + 1) server qname w = .ok addr) ∧
    (firstAnswer w (net server qname w).answers = none →
      ∀ addr, firstAdditionalA (net server qname w).additionals = some addr →
        resolve net root (fuel + 1) server qname w =
          resolve net root fuel addr qname w) ∧
    (firstAnswer w (net server qname w).answers = none →
      firstAdditionalA (net server qname w).additionals = none →
      ∀ t, firstAuthorityNS (net server qname w).authorities = some t →
        resolve net root (fuel + 1) server qname w =
          match resolve net root fuel root t false with
          | .error e => .error e
          | .ok addr => resolve net root fuel addr qname w) ∧
    (firstAnswer w (net server qname w).answers = none →
      firstAdditionalA (net server qname w).additionals = none →
      firstAuthorityNS (net server qname w).authorities = none →
      resolve net root (fuel + 1) server qname w =
        .error .noResolutionPath) := by
  refine ⟨?_, ?_, ?_, ?_⟩
  · intro addr ha
    simp [resolve, resolveStep, ha]
  · intro ha addr hb
    simp [resolve, resolveStep, ha, hb]
  · intro ha hb t hc
    simp [resolve, resolveStep, ha, hb, hc]
  · intro ha hb hc
    simp [resolve, resolveStep, ha, hb, hc]

/-- Witness for C9: a nameserver that answers every query with the
single answer address `1` resolves in one step to that address. -/
theorem resolve_priority_witness :
    resolve (fun _ _ _ => ⟨[.a ['1']], [], []⟩) [] (0 + 1) [] [] false =
      .ok ['1'] :=
  (resolve_priority (fun _ _ _ => ⟨[.a ['1']], [], []⟩) [] 0 [] [] false).1
    ['1'] (by decide)

end ToyDns
